import Mathlib

/-!
Verification of the text-normalization and metadata-extraction pipeline of the
`ambiguity-in-action` repository (Colombian decree/law PDF-to-text scripts).

The Python sources are shallowly embedded over `List Char`.  Each `re.sub`
pass of the sources is embedded as a position matcher (a function that, at a
given scan position, either fails or returns the replacement together with the
remaining input after the match) driven by a generic scanning engine that
mirrors Python's `re.sub` left-to-right, leftmost-match, continue-after-match
semantics.  All matchers consume at least one character, so a fuel of the
input length is always sufficient for the engine.

Python's `\w` and `\s` are Unicode-aware; the documents and claims at hand
only exercise ASCII plus the Spanish accented letters, so the embedded
character classes cover ASCII, the underscore, and the accented letters that
appear literally in the sources' character classes.
-/

namespace AmbiguityInAction

abbrev Str := List Char

def sl (s : String) : Str := s.toList

/-- Python `\s` (the members exercised by these documents). -/
def pyIsSpace (c : Char) : Bool :=
  c = ' ' || c = '\t' || c = '\n' || c = '\r' || c = '\x0b' || c = '\x0c'

def spanishExtra : List Char :=
  ['ñ', 'Ñ', 'á', 'é', 'í', 'ó', 'ú', 'Á', 'É', 'Í', 'Ó', 'Ú', 'ü', 'Ü']

def asciiLower (c : Char) : Bool := 'a' ≤ c && c ≤ 'z'

def asciiUpper (c : Char) : Bool := 'A' ≤ c && c ≤ 'Z'

def isDigitC (c : Char) : Bool := '0' ≤ c && c ≤ '9'

/-- Python `\w` (word character): letters, digits, underscore. -/
def pyIsWordChar (c : Char) : Bool :=
  asciiLower c || asciiUpper c || isDigitC c || c = '_' || spanishExtra.contains c

/-- Python `str.strip()`. -/
def pyStrip (l : Str) : Str :=
  ((l.dropWhile pyIsSpace).reverse.dropWhile pyIsSpace).reverse

/-!
Generic `re.sub` engine.  A matcher `m` is tried at each position; on success
it yields the replacement text together with the rest of the input after the
matched (nonempty) span, and scanning continues after the match; on failure
the current character is emitted and scanning moves one character right.
-/

def subF (m : Str → Option (Str × Str)) : Nat → Str → Str
  | 0, l => l
  | _ + 1, [] => []
  | f + 1, c :: cs =>
    match m (c :: cs) with
    | some (r, rest) => r ++ subF m f rest
    | none => c :: subF m f cs

def pySub (m : Str → Option (Str × Str)) (l : Str) : Str := subF m l.length l

/-!
Engine variant that additionally supplies the character of the original text
immediately preceding the current position (needed for `\b` word boundaries).
Matchers here report the number of characters consumed.
-/

def subFB (m : Option Char → Str → Option (Str × Nat)) :
    Nat → Option Char → Str → Str
  | 0, _, l => l
  | _ + 1, _, [] => []
  | f + 1, prev, c :: cs =>
    match m prev (c :: cs) with
    | some (r, k) => r ++ subFB m f ((c :: cs)[k - 1]?) ((c :: cs).drop k)
    | none => c :: subFB m f (some c) cs

def pySubB (m : Option Char → Str → Option (Str × Nat)) (l : Str) : Str :=
  subFB m l.length none l

/-!
`DecreeDataLoader.clean_text` (src/preprocessing/data_loader.py, lines 59-85):
    text = re.sub(r'\n{3,}', '\n\n', text)
    text = re.sub(r'[ \t]+', ' ', text)
    text = re.sub(r'[^\w\s\.\,\;\:\!\?\(\)\-\"\'\ñÑáéíóúÁÉÍÓÚüÜ]', ' ', text)
    text = re.sub(r'\s+', ' ', text)
    text = text.strip()
-/

def isSpTab (c : Char) : Bool := c = ' ' || c = '\t'

def isNl (c : Char) : Bool := c = '\n'

/-- Matcher for `\n{3,}` (replacement fixed to two newlines). -/
def mNl3 (l : Str) : Option (Str × Str) :=
  if 3 ≤ (l.takeWhile isNl).length then
    some (['\n', '\n'], l.dropWhile isNl)
  else none

/-- Matcher for a `CLASS+` pattern whose replacement is one space: at the
current position, a nonempty maximal run of class characters is matched and
replaced by a single `' '`. -/
def mColl (p : Char → Bool) (l : Str) : Option (Str × Str) :=
  match l with
  | c :: cs => if p c then some ([' '], cs.dropWhile p) else none
  | [] => none

/-- Matcher for `[ \t]+` (replacement fixed to one space). -/
def mSpTab : Str → Option (Str × Str) := mColl isSpTab

def dlPunct : List Char := ['.', ',', ';', ':', '!', '?', '(', ')', '-', '"', '\'']

/-- A character kept by the class `[^\w\s\.\,\;\:\!\?\(\)\-\"\'\ñÑáéíóúÁÉÍÓÚüÜ]`. -/
def dlAllowed (c : Char) : Bool :=
  pyIsWordChar c || pyIsSpace c || dlPunct.contains c || spanishExtra.contains c

/-- Matcher for the disallowed-character class (replacement: one space). -/
def mDisallowed (l : Str) : Option (Str × Str) :=
  match l with
  | c :: cs => if dlAllowed c then none else some ([' '], cs)
  | [] => none

/-- Matcher for `\s+` (replacement fixed to one space). -/
def mWs : Str → Option (Str × Str) := mColl pyIsSpace

def clean_text (l : Str) : Str :=
  pyStrip (pySub mWs (pySub mDisallowed (pySub mSpTab (pySub mNl3 l))))

/-!
`DecreeDataLoader.extract_metadata` (data_loader.py, lines 87-125).
    decreto_pattern = r'DECRETO\s+(?:NÚMERO\s+)?(\d+)\s+DE\s+(\d{4})'
    ley_pattern = r'LEY\s+(\d+)\s+DE\s+(\d{4})'
both searched case-insensitively with `re.search` (leftmost match wins),
decree checked first.
-/

/-- Case folding for `re.IGNORECASE` over the characters in play. -/
def lowerSp (c : Char) : Char :=
  if asciiUpper c then Char.ofNat (c.toNat + 32)
  else if c = 'Á' then 'á'
  else if c = 'É' then 'é'
  else if c = 'Í' then 'í'
  else if c = 'Ó' then 'ó'
  else if c = 'Ú' then 'ú'
  else if c = 'Ñ' then 'ñ'
  else if c = 'Ü' then 'ü'
  else c

/-- Case-insensitive literal match; the pattern is given lowercased.
Returns the rest of the input after the literal. -/
def matchCI : Str → Str → Option Str
  | [], l => some l
  | _ :: _, [] => none
  | p :: ps, c :: cs => if lowerSp c = p then matchCI ps cs else none

/-- Regex `\s+`: one or more whitespace characters (greedy). -/
def matchWsPlus (l : Str) : Option Str :=
  match l with
  | c :: cs => if pyIsSpace c then some (cs.dropWhile pyIsSpace) else none
  | [] => none

/-- Regex `(\d+)`: a nonempty maximal digit run, returned with the rest. -/
def matchDigitsPlus (l : Str) : Option (Str × Str) :=
  match l.takeWhile isDigitC with
  | [] => none
  | d => some (d, l.dropWhile isDigitC)

/-- Regex `(\d{4})`: exactly four digits. -/
def matchYear4 (l : Str) : Option Str :=
  match l with
  | a :: b :: c :: d :: _ =>
    if isDigitC a && isDigitC b && isDigitC c && isDigitC d then
      some [a, b, c, d]
    else none
  | _ => none

/-- Anchored match of `DECRETO\s+(?:NÚMERO\s+)?(\d+)\s+DE\s+(\d{4})` with
`re.IGNORECASE`; returns the two groups (number, year).  The optional
`NÚMERO\s+` group is committed exactly when it is followed by a digit, which
coincides with the regex's backtracking behavior (a failed optional group
would require a digit where an `N` stands). -/
def matchDecreto (l : Str) : Option (Str × Str) := do
  let r1 ← matchCI (sl ("decreto")) l
  let r2 ← matchWsPlus r1
  let numeroPath : Option (Str × Str) := do
    let r3 ← matchCI (sl ("número")) r2
    let r3b ← matchWsPlus r3
    matchDigitsPlus r3b
  let (num, r4) ← (match numeroPath with
    | some v => some v
    | none => matchDigitsPlus r2)
  let r5 ← matchWsPlus r4
  let r6 ← matchCI (sl ("de")) r5
  let r7 ← matchWsPlus r6
  let y ← matchYear4 r7
  pure (num, y)

/-- Anchored match of `LEY\s+(\d+)\s+DE\s+(\d{4})` with `re.IGNORECASE`. -/
def matchLey (l : Str) : Option (Str × Str) := do
  let r1 ← matchCI (sl ("ley")) l
  let r2 ← matchWsPlus r1
  let (num, r4) ← matchDigitsPlus r2
  let r5 ← matchWsPlus r4
  let r6 ← matchCI (sl ("de")) r5
  let r7 ← matchWsPlus r6
  let y ← matchYear4 r7
  pure (num, y)

/-- `re.search`: try the anchored matcher at each position, leftmost first. -/
def pySearch {α : Type} (m : Str → Option α) : Str → Option α
  | [] => none
  | c :: cs =>
    match m (c :: cs) with
    | some v => some v
    | none => pySearch m cs

inductive DocType where
  | DECRETO
  | LEY
  | UNKNOWN
deriving DecidableEq, Repr

/-- Python `text.split('\n\n')` (used for `paragraph_count`): scan for the
leftmost separator occurrence, cut, continue after it.  The part currently
being read is accumulated in reverse. -/
def splitNNAux : Str → Str → List Str
  | [], acc => [acc.reverse]
  | [c], acc => [(c :: acc).reverse]
  | c :: d :: rest, acc =>
    if c = '\n' && d = '\n' then acc.reverse :: splitNNAux rest []
    else splitNNAux (d :: rest) (c :: acc)

def splitNN (l : Str) : List Str := splitNNAux l []

/-- Python `text.split()` (whitespace split, no empty parts), via an
accumulator for the word currently being read (kept reversed). -/
def splitWhiteAux : Str → Str → List Str
  | [], acc => if acc.isEmpty then [] else [acc.reverse]
  | c :: cs, acc =>
    if pyIsSpace c then
      if acc.isEmpty then splitWhiteAux cs []
      else acc.reverse :: splitWhiteAux cs []
    else splitWhiteAux cs (c :: acc)

def pySplitWhite (l : Str) : List Str := splitWhiteAux l []

structure Metadata where
  filename : Str
  word_count : Nat
  char_count : Nat
  paragraph_count : Nat
  document_type : DocType
  number : Option Str
  year : Option Str
deriving DecidableEq, Repr

def extract_metadata (text : Str) (filename : Str) : Metadata :=
  let tny : DocType × Option Str × Option Str :=
    match pySearch matchDecreto text with
    | some (n, y) => (DocType.DECRETO, some n, some y)
    | none =>
      match pySearch matchLey text with
      | some (n, y) => (DocType.LEY, some n, some y)
      | none => (DocType.UNKNOWN, none, none)
  { filename := filename
    word_count := (pySplitWhite text).length
    char_count := text.length
    paragraph_count := (splitNN text).length
    document_type := tny.1
    number := tny.2.1
    year := tny.2.2 }

/-!
`OCRExtractor._clean_ocr_text` (src/preprocessing/ocr_extractor.py,
lines 112-149).  Fifteen `re.sub` passes in order, preceded by an
early return of the input when `text.strip()` is empty.
-/

def prevIsWord : Option Char → Bool
  | none => false
  | some c => pyIsWordChar c

/-- `\bKEYWORD\b` with `re.IGNORECASE`, fixed replacement.  The pattern is
given lowercased; for a keyword of word characters, the leading `\b` holds
exactly when the preceding character is absent or not a word character, the
trailing one when the following character is absent or not a word character. -/
def kwBoundary (pat rep : Str) (prev : Option Char) (l : Str) : Option (Str × Nat) :=
  if prevIsWord prev then none
  else
    match matchCI pat l with
    | some rest =>
      match rest with
      | [] => some (rep, pat.length)
      | d :: _ => if pyIsWordChar d then none else some (rep, pat.length)
    | none => none

/-- `\bDECRETO\s+N[úu]mero\b` with `re.IGNORECASE` → `DECRETO Número`. -/
def mDecretoNumero (prev : Option Char) (l : Str) : Option (Str × Nat) :=
  if prevIsWord prev then none
  else
    match matchCI (sl ("decreto")) l with
    | none => none
    | some r1 =>
      match matchWsPlus r1 with
      | none => none
      | some r2 =>
        match r2 with
        | n :: u :: r3 =>
          if lowerSp n = 'n' && (lowerSp u = 'ú' || lowerSp u = 'u') then
            match matchCI (sl ("mero")) r3 with
            | some r4 =>
              let ok : Bool :=
                match r4 with
                | [] => true
                | d :: _ => !(pyIsWordChar d)
              if ok then some (sl ("DECRETO Número"), l.length - r4.length)
              else none
            | none => none
          else none
        | _ => none

def sentPunct : List Char := ['.', '!', '?']

def s6Upper (c : Char) : Bool :=
  asciiUpper c || (['Á', 'É', 'Í', 'Ó', 'Ú', 'Ñ'] : List Char).contains c

/-- `([.!?])\s*([A-ZÁÉÍÓÚÑ])` → `\1\n\2`. -/
def mPunctUpper (l : Str) : Option (Str × Str) :=
  match l with
  | c :: cs =>
    if sentPunct.contains c then
      match cs.dropWhile pyIsSpace with
      | d :: rest2 => if s6Upper d then some ([c, '\n', d], rest2) else none
      | [] => none
    else none
  | [] => none

/-- `([.!?])\s*(\d+\.)` → `\1\n\2`. -/
def mPunctNum (l : Str) : Option (Str × Str) :=
  match l with
  | c :: cs =>
    if sentPunct.contains c then
      let rest := cs.dropWhile pyIsSpace
      match rest.takeWhile isDigitC with
      | [] => none
      | digs =>
        match rest.dropWhile isDigitC with
        | '.' :: rest2 => some (c :: '\n' :: (digs ++ ['.']), rest2)
        | _ => none
    else none
  | [] => none

/-- One alternative of `\b(ARTÍCULO|PARÁGRAFO|CAPÍTULO|TÍTULO)\s+(\d+)`
(`re.IGNORECASE`) → `\n\n\1 \2`; group 1 keeps the original spelling. -/
def tryStructKw (kw : Str) (l : Str) : Option (Str × Nat) :=
  match matchCI kw l with
  | none => none
  | some r1 =>
    match matchWsPlus r1 with
    | none => none
    | some r2 =>
      match r2.takeWhile isDigitC with
      | [] => none
      | digs =>
        some (('\n' :: '\n' :: l.take kw.length) ++ (' ' :: digs),
          l.length - (r2.dropWhile isDigitC).length)

def mStructKw (prev : Option Char) (l : Str) : Option (Str × Nat) :=
  if prevIsWord prev then none
  else
    tryStructKw (sl ("artículo")) l <|> tryStructKw (sl ("parágrafo")) l <|>
      tryStructKw (sl ("capítulo")) l <|> tryStructKw (sl ("título")) l

/-- One alternative of `\b(CONSIDERANDO|DECRETA|DISPONE):` (`re.IGNORECASE`)
→ `\n\n\1:`; group 1 keeps the original spelling. -/
def tryClauseKw (kw : Str) (l : Str) : Option (Str × Nat) :=
  match matchCI kw l with
  | none => none
  | some r1 =>
    match r1 with
    | ':' :: _ => some (('\n' :: '\n' :: l.take kw.length) ++ [':'], kw.length + 1)
    | _ => none

def mClauseKw (prev : Option Char) (l : Str) : Option (Str × Nat) :=
  if prevIsWord prev then none
  else
    tryClauseKw (sl ("considerando")) l <|> tryClauseKw (sl ("decreta")) l <|>
      tryClauseKw (sl ("dispone")) l

def punct6 : List Char := ['.', ',', ':', ';', '!', '?']

/-- `\s+([.,:;!?])` → `\1`. -/
def mWsPunct (l : Str) : Option (Str × Str) :=
  match l with
  | c :: cs =>
    if pyIsSpace c then
      match cs.dropWhile pyIsSpace with
      | d :: rest => if punct6.contains d then some ([d], rest) else none
      | [] => none
    else none
  | [] => none

def s11Letter (c : Char) : Bool :=
  asciiLower c || asciiUpper c ||
    (['á', 'é', 'í', 'ó', 'ú', 'ñ', 'Á', 'É', 'Í', 'Ó', 'Ú', 'Ñ'] : List Char).contains c

/-- `([.,:;!?])([A-Za-záéíóúñÁÉÍÓÚÑ])` → `\1 \2`. -/
def mPunctLetter (l : Str) : Option (Str × Str) :=
  match l with
  | c :: d :: rest =>
    if punct6.contains c && s11Letter d then some ([c, ' ', d], rest) else none
  | _ => none

/-- Matcher for `\n{4,}` (replacement fixed to two newlines).
The source comment says "Max 2 newlines", but the pattern only fires on
runs of four or more, so a run of exactly three newlines survives. -/
def mNl4 (l : Str) : Option (Str × Str) :=
  if 4 ≤ (l.takeWhile isNl).length then
    some (['\n', '\n'], l.dropWhile isNl)
  else none

def isSp (c : Char) : Bool := c = ' '

/-- ` +\n` → `\n`. -/
def mSpacesNl (l : Str) : Option (Str × Str) :=
  match l with
  | c :: cs =>
    if c = ' ' then
      match cs.dropWhile isSp with
      | '\n' :: rest => some (['\n'], rest)
      | _ => none
    else none
  | [] => none

/-- `\n +` → `\n`. -/
def mNlSpaces (l : Str) : Option (Str × Str) :=
  match l with
  | '\n' :: c :: cs =>
    if c = ' ' then some (['\n'], cs.dropWhile isSp) else none
  | _ => none

/-- The fifteen passes of `_clean_ocr_text`, in source order. -/
def ocrPasses (t : Str) : Str :=
  let t1 := pySubB (kwBoundary (sl ("artlculo")) (sl ("ARTÍCULO"))) t
  let t2 := pySubB (kwBoundary (sl ("articulo")) (sl ("ARTÍCULO"))) t1
  let t3 := pySubB mDecretoNumero t2
  let t4 := pySubB (kwBoundary (sl ("paragrafo")) (sl ("PARÁGRAFO"))) t3
  let t5 := pySubB (kwBoundary (sl ("capitulo")) (sl ("CAPÍTULO"))) t4
  let t6 := pySub mPunctUpper t5
  let t7 := pySub mPunctNum t6
  let t8 := pySubB mStructKw t7
  let t9 := pySubB mClauseKw t8
  let t10 := pySub mWsPunct t9
  let t11 := pySub mPunctLetter t10
  let t12 := pySub mNl4 t11
  let t13 := pySub mSpTab t12
  let t14 := pySub mSpacesNl t13
  let t15 := pySub mNlSpaces t14
  pyStrip t15

def clean_ocr_text (t : Str) : Str :=
  if (pyStrip t).isEmpty then t else ocrPasses t

/-!
`PDFExtractor._clean_extracted_text` (z_archive/preprocessing/pdf_extractor.py,
lines 85-122).
-/

def asciiAlpha (c : Char) : Bool := asciiLower c || asciiUpper c

/-- `([a-z])([A-Z])` → `\1 \2`. -/
def mLowerUpper (l : Str) : Option (Str × Str) :=
  match l with
  | a :: b :: rest =>
    if asciiLower a && asciiUpper b then some ([a, ' ', b], rest) else none
  | _ => none

/-- `(\d)([A-Za-z])` → `\1 \2`. -/
def mDigitLetter (l : Str) : Option (Str × Str) :=
  match l with
  | a :: b :: rest =>
    if isDigitC a && asciiAlpha b then some ([a, ' ', b], rest) else none
  | _ => none

/-- `([A-Za-z])(\d)` → `\1 \2`. -/
def mLetterDigit (l : Str) : Option (Str × Str) :=
  match l with
  | a :: b :: rest =>
    if asciiAlpha a && isDigitC b then some ([a, ' ', b], rest) else none
  | _ => none

/-- `\n\d+\n` → `\n`. -/
def mNlNumNl (l : Str) : Option (Str × Str) :=
  match l with
  | '\n' :: cs =>
    match cs.takeWhile isDigitC with
    | [] => none
    | _ =>
      match cs.dropWhile isDigitC with
      | '\n' :: rest => some (['\n'], rest)
      | _ => none
  | _ => none

/-- `\n\s*\d+\s*\n` → `\n`.  Both `\s*` are greedy; the first can only
succeed maximally (a digit must follow), while the second backtracks to the
last newline inside the whitespace run that follows the digits. -/
def mNlWsNumWsNl (l : Str) : Option (Str × Str) :=
  match l with
  | '\n' :: cs =>
    let r1 := cs.dropWhile pyIsSpace
    match r1.takeWhile isDigitC with
    | [] => none
    | _ =>
      let r2 := r1.dropWhile isDigitC
      let wsrun := r2.takeWhile pyIsSpace
      if wsrun.contains '\n' then
        let after := (wsrun.reverse.takeWhile (fun c => !(c = '\n'))).reverse
        some (['\n'], after ++ r2.dropWhile pyIsSpace)
      else none
  | _ => none

def accLower : List Char := ['á', 'é', 'í', 'ó', 'ú', 'ñ']

def accUpper : List Char := ['Á', 'É', 'Í', 'Ó', 'Ú', 'Ñ']

/-- `([a-záéíóúñ])([AÁÉÍÓÚÑ])` → `\1 \2`. -/
def mLowerAccUpper (l : Str) : Option (Str × Str) :=
  match l with
  | a :: b :: rest =>
    if (asciiLower a || accLower.contains a) && (b = 'A' || accUpper.contains b) then
      some ([a, ' ', b], rest)
    else none
  | _ => none

def pdfPasses (t : Str) : Str :=
  let t1 := pySub mNl3 t
  let t2 := pySub mSpTab t1
  let t3 := pySub mLowerUpper t2
  let t4 := pySub mDigitLetter t3
  let t5 := pySub mLetterDigit t4
  let t6 := pySub mNlNumNl t5
  let t7 := pySub mNlWsNumWsNl t6
  let t8 := pySub mLowerAccUpper t7
  let t9 := pySub mWs t8
  pyStrip t9

def clean_extracted_text (t : Str) : Str :=
  if (pyStrip t).isEmpty then t else pdfPasses t

/-!
File-system model for the two text source adapters.

`OCRExtractor.ocr_pdf` (ocr_extractor.py, lines 33-110) and
`PDFExtractor.extract_text_from_pdf` (z_archive pdf_extractor.py, lines
22-83) both check that the input file exists before doing anything else and
raise `FileNotFoundError` otherwise; on success they loop over the pages,
where a page either yields text or raises (modelled by `PageResult`), append
each good page's text plus a blank line to the accumulator, log a warning and
skip the page otherwise, clean the accumulated text and write it to the
output file.  The file system is a finite map from names to page lists plus
the set of written outputs; log messages are returned alongside.
-/

inductive PageResult where
  | ok (t : Str)
  | err
deriving DecidableEq, Repr

inductive LogEvent where
  | pageFailed (n : Nat)
  | pageEmpty (n : Nat)
deriving DecidableEq, Repr

inductive ExtractErr where
  | fileNotFound
  | popplerNotFound
deriving DecidableEq, Repr

structure PdfFS where
  docs : List (String × List PageResult)
  outputs : List (String × Str)
  popplerExists : Bool
deriving DecidableEq, Repr

def lookupDoc (fs : PdfFS) (name : String) : Option (List PageResult) :=
  (fs.docs.find? (fun p => p.1 == name)).map (fun p => p.2)

/-- The OCR page loop: a page's text is kept when `page_text.strip()` is
nonempty; a failing page is logged and skipped (`continue`). -/
def ocrPagesLoop : Nat → List PageResult → Str × List LogEvent
  | _, [] => ([], [])
  | n, p :: ps =>
    let rec_ := ocrPagesLoop (n + 1) ps
    match p with
    | PageResult.ok t =>
      if (pyStrip t).isEmpty then (rec_.1, LogEvent.pageEmpty n :: rec_.2)
      else (t ++ sl ("\n\n") ++ rec_.1, rec_.2)
    | PageResult.err => (rec_.1, LogEvent.pageFailed n :: rec_.2)

def ocr_pdf (fs : PdfFS) (name outname : String) :
    PdfFS × List LogEvent × Except ExtractErr Str :=
  match lookupDoc fs name with
  | none => (fs, [], Except.error ExtractErr.fileNotFound)
  | some pages =>
    if fs.popplerExists then
      let fl := ocrPagesLoop 1 pages
      let cleaned := clean_ocr_text fl.1
      ({ fs with outputs := fs.outputs ++ [(outname, cleaned)] },
        fl.2, Except.ok cleaned)
    else (fs, [], Except.error ExtractErr.popplerNotFound)

/-- The pdfplumber page loop: a page's text is kept when truthy
(`if page_text:`, i.e. nonempty); a failing page is logged and skipped. -/
def pdfPagesLoop : Nat → List PageResult → Str × List LogEvent
  | _, [] => ([], [])
  | n, p :: ps =>
    let rec_ := pdfPagesLoop (n + 1) ps
    match p with
    | PageResult.ok t =>
      if t.isEmpty then (rec_.1, LogEvent.pageEmpty n :: rec_.2)
      else (t ++ sl ("\n\n") ++ rec_.1, rec_.2)
    | PageResult.err => (rec_.1, LogEvent.pageFailed n :: rec_.2)

def extract_text_from_pdf (fs : PdfFS) (name outname : String) :
    PdfFS × List LogEvent × Except ExtractErr Str :=
  match lookupDoc fs name with
  | none => (fs, [], Except.error ExtractErr.fileNotFound)
  | some pages =>
    let fl := pdfPagesLoop 1 pages
    let cleaned := clean_extracted_text fl.1
    ({ fs with outputs := fs.outputs ++ [(outname, cleaned)] },
      fl.2, Except.ok cleaned)

/-! ### Predicates used by the claims -/

/-- `NoPairRun p l`: no two adjacent characters of `l` are both in class
`p`, and every `p`-class character of `l` is a plain space (`RunFree`):
exactly the state established by a `CLASS+ → ' '` substitution. -/
def NoPairRun (p : Char → Bool) (l : Str) : Prop :=
  l.Chain' (fun a b => p a = false ∨ p b = false)

def RunFree (p : Char → Bool) (l : Str) : Prop :=
  (∀ c ∈ l, p c = true → c = ' ') ∧ NoPairRun p l

/-- The result of `strip` has no leading and no trailing whitespace. -/
def Stripped (l : Str) : Prop :=
  (∀ c ∈ l.head?, pyIsSpace c = false) ∧ (∀ c ∈ l.getLast?, pyIsSpace c = false)

/-- Whether the text contains two adjacent spaces (a run of 2+ spaces). -/
def hasTwoSpaces : Str → Bool
  | c :: d :: r => (c = ' ' && d = ' ') || hasTwoSpaces (d :: r)
  | _ => false

/-- Whether the text contains a run of three or more newlines. -/
def hasNlRun3 : Str → Bool
  | a :: b :: c :: r => (a = '\n' && b = '\n' && c = '\n') || hasNlRun3 (b :: c :: r)
  | _ => false

/-- The character allow-list exactly as the specification words it: letters
(including the accented Latin vowels and ñ/Ñ), digits, whitespace, and the
small fixed punctuation set — notably without the underscore, which the
source's `\w` keeps. -/
def specAllowedChar (c : Char) : Bool :=
  asciiAlpha c || spanishExtra.contains c || isDigitC c || pyIsSpace c ||
    dlPunct.contains c

/-! ### Generic facts about the substitution engine -/

theorem subF_nil (m : Str → Option (Str × Str)) (f : Nat) : subF m f [] = [] := by
  cases f <;> rfl

theorem subF_no_match_id (m : Str → Option (Str × Str)) :
    ∀ (f : Nat) (l : Str), (∀ i, m (l.drop i) = none) → subF m f l = l := by
  intro f
  induction f with
  | zero => intro l _; rfl
  | succ f ih =>
    intro l h
    cases l with
    | nil => rfl
    | cons c cs =>
      have h0 : m (c :: cs) = none := by simpa using h 0
      have h1 : ∀ i, m (cs.drop i) = none := fun i => by
        simpa [List.drop_succ_cons] using h (i + 1)
      simp [subF, h0, ih cs h1]

theorem pySub_no_match_id (m : Str → Option (Str × Str)) (l : Str)
    (h : ∀ i, m (l.drop i) = none) : pySub m l = l :=
  subF_no_match_id m l.length l h

/-! ### The collapsed-run invariant -/

theorem runFree_nil (p : Char → Bool) : RunFree p [] :=
  ⟨by simp, List.chain'_nil⟩

theorem chain'_dropWhile {R : Char → Char → Prop} {q : Char → Bool} :
    ∀ {l : Str}, l.Chain' R → (l.dropWhile q).Chain' R := by
  intro l
  induction l with
  | nil => intro h; simp
  | cons c cs ih =>
    intro h
    rw [List.dropWhile_cons]
    split
    · exact ih h.tail
    · exact h

theorem RunFree.tail {p : Char → Bool} {l : Str} (h : RunFree p l) : RunFree p l.tail := by
  refine ⟨fun c hc hp => h.1 c ?_ hp, h.2.tail⟩
  cases l with
  | nil => simp at hc
  | cons a as => exact List.mem_cons_of_mem a hc

theorem RunFree.drop_while {p q : Char → Bool} {l : Str} (h : RunFree p l) :
    RunFree p (l.dropWhile q) :=
  ⟨fun c hc hp => h.1 c ((List.dropWhile_sublist q).subset hc) hp, chain'_dropWhile h.2⟩

theorem runFree_mono {p q : Char → Bool} (hpq : ∀ c, p c = true → q c = true)
    {l : Str} (h : RunFree q l) : RunFree p l := by
  constructor
  · exact fun c hc hp => h.1 c hc (hpq c hp)
  · refine h.2.imp fun a b hab => ?_
    rcases hab with h1 | h1
    · left
      cases hpa : p a with
      | false => rfl
      | true => rw [hpq a hpa] at h1; cases h1
    · right
      cases hpb : p b with
      | false => rfl
      | true => rw [hpq b hpb] at h1; cases h1

theorem head_dropWhile_false (q : Char → Bool) :
    ∀ (l : Str) {x : Char} {xs : Str}, l.dropWhile q = x :: xs → q x = false := by
  intro l
  induction l with
  | nil => intro x xs h; simp at h
  | cons c cs ih =>
    intro x xs h
    rw [List.dropWhile_cons] at h
    by_cases hc : q c = true
    · rw [if_pos hc] at h; exact ih h
    · rw [if_neg hc] at h
      injection h with h1 _
      subst h1
      simpa using hc

/-! ### The `CLASS+ → ' '` collapse matcher -/

theorem subF_mColl_cons_false {p : Char → Bool} (f : Nat) (x : Char) (xs : Str)
    (hx : p x = false) :
    subF (mColl p) (f + 1) (x :: xs) = x :: subF (mColl p) f xs := by
  simp [subF, mColl, hx]

theorem subF_mColl_cons_true {p : Char → Bool} (f : Nat) (x : Char) (xs : Str)
    (hx : p x = true) :
    subF (mColl p) (f + 1) (x :: xs) = ' ' :: subF (mColl p) f (xs.dropWhile p) := by
  simp [subF, mColl, hx]

theorem runFree_subF_mColl (p : Char → Bool) :
    ∀ (f : Nat) (l : Str), l.length ≤ f → RunFree p (subF (mColl p) f l) := by
  intro f
  induction f with
  | zero =>
    intro l hl
    have hnil : l = [] := List.length_eq_zero.mp (Nat.le_zero.mp hl)
    subst hnil
    exact runFree_nil p
  | succ f ih =>
    intro l hl
    cases l with
    | nil => rw [subF_nil]; exact runFree_nil p
    | cons c cs =>
      have hcs : cs.length ≤ f := by simpa using hl
      by_cases hc : p c = true
      · have hrest : (cs.dropWhile p).length ≤ f :=
          le_trans (List.dropWhile_sublist p).length_le hcs
        have hI := ih (cs.dropWhile p) hrest
        rw [subF_mColl_cons_true f c cs hc]
        constructor
        · intro d hd _
          rcases List.mem_cons.mp hd with h1 | h1
          · exact h1
          · exact hI.1 d h1 (by assumption)
        · refine List.chain'_cons'.mpr ⟨?_, hI.2⟩
          intro y hy
          right
          cases hD : cs.dropWhile p with
          | nil => rw [hD, subF_nil] at hy; simp at hy
          | cons x xs =>
            have hx : p x = false := head_dropWhile_false p cs hD
            have hlen : (x :: xs).length ≤ f := hD ▸ hrest
            cases f with
            | zero => simp at hlen
            | succ f' =>
              rw [hD, subF_mColl_cons_false f' x xs hx, List.head?_cons] at hy
              cases hy
              exact hx
      · have hc' : p c = false := by simpa using hc
        have hI := ih cs hcs
        rw [subF_mColl_cons_false f c cs hc']
        constructor
        · intro d hd hpd
          rcases List.mem_cons.mp hd with h1 | h1
          · subst h1; rw [hpd] at hc'; cases hc'
          · exact hI.1 d h1 hpd
        · exact List.chain'_cons'.mpr ⟨fun y _ => Or.inl hc', hI.2⟩

theorem mem_subF_mColl (p : Char → Bool) :
    ∀ (f : Nat) (l : Str) (c : Char), c ∈ subF (mColl p) f l → c ∈ l ∨ c = ' ' := by
  intro f
  induction f with
  | zero => intro l c h; left; exact h
  | succ f ih =>
    intro l c h
    cases l with
    | nil => rw [subF_nil] at h; simp at h
    | cons a cs =>
      by_cases ha : p a = true
      · rw [subF_mColl_cons_true f a cs ha] at h
        rcases List.mem_cons.mp h with h1 | h1
        · right; exact h1
        · rcases ih _ c h1 with h2 | h2
          · left; exact List.mem_cons_of_mem a ((List.dropWhile_sublist p).subset h2)
          · right; exact h2
      · rw [subF_mColl_cons_false f a cs (by simpa using ha)] at h
        rcases List.mem_cons.mp h with h1 | h1
        · left; rw [h1]; exact List.mem_cons_self a cs
        · rcases ih cs c h1 with h2 | h2
          · left; exact List.mem_cons_of_mem a h2
          · right; exact h2

theorem subF_mColl_id (p : Char → Bool) :
    ∀ (f : Nat) (l : Str), l.length ≤ f → RunFree p l → subF (mColl p) f l = l := by
  intro f
  induction f with
  | zero =>
    intro l hl _
    have hnil : l = [] := List.length_eq_zero.mp (Nat.le_zero.mp hl)
    subst hnil; rfl
  | succ f ih =>
    intro l hl h
    cases l with
    | nil => exact subF_nil _ _
    | cons c cs =>
      have hcs : cs.length ≤ f := by simpa using hl
      by_cases hc : p c = true
      · have hceq : c = ' ' := h.1 c (List.mem_cons_self c cs) hc
        have hdw : cs.dropWhile p = cs := by
          cases cs with
          | nil => rfl
          | cons x xs =>
            have hx : p x = false := by
              rcases (List.chain'_cons.mp h.2).1 with h1 | h1
              · rw [hc] at h1; cases h1
              · exact h1
            rw [List.dropWhile_cons, if_neg (by simp [hx])]
        rw [subF_mColl_cons_true f c cs hc, hdw, ih cs hcs h.tail, hceq]
      · rw [subF_mColl_cons_false f c cs (by simpa using hc), ih cs hcs h.tail]

/-! ### Facts about `pyStrip` -/

theorem mem_pyStrip {c : Char} {l : Str} (h : c ∈ pyStrip l) : c ∈ l := by
  unfold pyStrip at h
  rw [List.mem_reverse] at h
  have h1 := (List.dropWhile_sublist pyIsSpace).subset h
  rw [List.mem_reverse] at h1
  exact (List.dropWhile_sublist pyIsSpace).subset h1

theorem runFree_pyStrip {p : Char → Bool} {l : Str} (h : RunFree p l) :
    RunFree p (pyStrip l) := by
  constructor
  · exact fun c hc hp => h.1 c (mem_pyStrip hc) hp
  · unfold pyStrip NoPairRun
    rw [List.chain'_reverse]
    apply chain'_dropWhile
    rw [List.chain'_reverse]
    apply chain'_dropWhile
    exact h.2


theorem dropWhile_eq_self_of_head (q : Char → Bool) (l : Str)
    (h : ∀ c ∈ l.head?, q c = false) : l.dropWhile q = l := by
  cases l with
  | nil => rfl
  | cons c cs =>
    rw [List.dropWhile_cons, if_neg]
    simp only [List.head?_cons, Option.mem_def, Option.some.injEq] at h
    simp [h c rfl]

theorem pyStrip_eq_self {l : Str} (h : Stripped l) : pyStrip l = l := by
  unfold pyStrip
  rw [dropWhile_eq_self_of_head _ _ h.1]
  rw [dropWhile_eq_self_of_head _ _ (by rw [List.head?_reverse]; exact h.2)]
  exact List.reverse_reverse l

theorem getLast?_dropWhile_ne (q : Char → Bool) :
    ∀ (l : Str), l.dropWhile q ≠ [] → (l.dropWhile q).getLast? = l.getLast? := by
  intro l
  induction l with
  | nil => intro h; simp at h
  | cons c cs ih =>
    intro h
    rw [List.dropWhile_cons] at h ⊢
    by_cases hc : q c = true
    · rw [if_pos hc] at h ⊢
      have hcs : cs ≠ [] := by
        intro he; rw [he] at h; simp at h
      rw [ih h]
      cases cs with
      | nil => exact absurd rfl hcs
      | cons d r => rw [List.getLast?_cons_cons]
    · rw [if_neg hc]

theorem pyStrip_stripped (l : Str) : Stripped (pyStrip l) := by
  constructor
  · intro c hc
    unfold pyStrip at hc
    rw [List.head?_reverse] at hc
    by_cases hB : (l.dropWhile pyIsSpace).reverse.dropWhile pyIsSpace = []
    · rw [hB] at hc; simp at hc
    · rw [getLast?_dropWhile_ne _ _ hB, List.getLast?_reverse] at hc
      cases hA : l.dropWhile pyIsSpace with
      | nil => rw [hA] at hc; simp at hc
      | cons x xs =>
        rw [hA] at hc
        simp only [List.head?_cons, Option.mem_def, Option.some.injEq] at hc
        subst hc
        exact head_dropWhile_false pyIsSpace l hA
  · intro c hc
    unfold pyStrip at hc
    rw [List.getLast?_reverse] at hc
    cases hB : (l.dropWhile pyIsSpace).reverse.dropWhile pyIsSpace with
    | nil => rw [hB] at hc; simp at hc
    | cons x xs =>
      rw [hB] at hc
      simp only [List.head?_cons, Option.mem_def, Option.some.injEq] at hc
      subst hc
      exact head_dropWhile_false pyIsSpace _ hB

/-! ### Claim-facing output predicates -/



theorem hasTwoSpaces_eq_false {p : Char → Bool} (hsp : p ' ' = true) :
    ∀ {l : Str}, NoPairRun p l → hasTwoSpaces l = false := by
  intro l
  induction l with
  | nil => intro _; rfl
  | cons c cs ih =>
    intro h
    cases cs with
    | nil => rfl
    | cons d r =>
      have h12 := List.chain'_cons.mp h
      have hpair : (decide (c = ' ') && decide (d = ' ')) = false := by
        rcases h12.1 with h1 | h1
        · cases hc : decide (c = ' ') with
          | false => simp
          | true =>
            rw [of_decide_eq_true hc, hsp] at h1
            cases h1
        · cases hd : decide (d = ' ') with
          | false => simp
          | true =>
            rw [of_decide_eq_true hd, hsp] at h1
            cases h1
      rw [hasTwoSpaces, hpair, ih h12.2]
      rfl

theorem not_mem_of_runFree {p : Char → Bool} {l : Str} (h : RunFree p l)
    {c : Char} (hp : p c = true) (hne : c ≠ ' ') : c ∉ l :=
  fun hmem => hne (h.1 c hmem hp)

/-! ### Preservation of the space/tab invariant by the trailing OCR passes -/

theorem mSpacesNl_spec (c : Char) (cs : Str) :
    mSpacesNl (c :: cs) = none ∨
    (c = ' ' ∧ ∃ rest, cs.dropWhile isSp = '\n' :: rest ∧
      mSpacesNl (c :: cs) = some (['\n'], rest)) := by
  by_cases hc : c = ' '
  · cases hD : cs.dropWhile isSp with
    | nil => left; simp [mSpacesNl, hc, hD]
    | cons d rest2 =>
      by_cases hd : d = '\n'
      · subst hd
        right
        exact ⟨hc, rest2, rfl, by simp [mSpacesNl, hc, hD]⟩
      · left
        simp only [mSpacesNl, hc, if_true, hD]
        split
        · rename_i heq
          injection heq with heq1 _
          exact absurd heq1 hd
        · rfl
  · left; simp [mSpacesNl, hc]

theorem head?_subF_mSpacesNl (f : Nat) (x : Char) (xs : Str) :
    (subF mSpacesNl (f + 1) (x :: xs)).head? = some '\n' ∨
    (subF mSpacesNl (f + 1) (x :: xs)).head? = some x := by
  rcases mSpacesNl_spec x xs with hm | ⟨_, rest, _, hm⟩
  · right; simp [subF, hm]
  · left; simp [subF, hm]

theorem runFree_subF_mSpacesNl :
    ∀ (f : Nat) (l : Str), l.length ≤ f → RunFree isSpTab l →
      RunFree isSpTab (subF mSpacesNl f l) := by
  intro f
  induction f with
  | zero =>
    intro l hl _
    have hnil : l = [] := List.length_eq_zero.mp (Nat.le_zero.mp hl)
    subst hnil
    exact runFree_nil _
  | succ f ih =>
    intro l hl h
    cases l with
    | nil => rw [subF_nil]; exact runFree_nil _
    | cons c cs =>
      have hcs : cs.length ≤ f := by simpa using hl
      rcases mSpacesNl_spec c cs with hm | ⟨hc, rest, hD, hm⟩
      · have hout : subF mSpacesNl (f + 1) (c :: cs) = c :: subF mSpacesNl f cs := by
          simp [subF, hm]
        rw [hout]
        have hI := ih cs hcs h.tail
        constructor
        · intro d hd hpd
          rcases List.mem_cons.mp hd with h1 | h1
          · exact h.1 d (List.mem_cons.mpr (Or.inl h1)) hpd
          · exact hI.1 d h1 hpd
        · refine List.chain'_cons'.mpr ⟨?_, hI.2⟩
          intro y hy
          by_cases hcst : isSpTab c = true
          · right
            cases cs with
            | nil => rw [subF_nil] at hy; simp at hy
            | cons x xs =>
              have hx : isSpTab x = false := by
                rcases (List.chain'_cons.mp h.2).1 with h1 | h1
                · rw [hcst] at h1; cases h1
                · exact h1
              cases f with
              | zero => simp at hcs
              | succ f' =>
                rcases head?_subF_mSpacesNl f' x xs with hh | hh
                · rw [hh] at hy
                  simp only [Option.mem_def, Option.some.injEq] at hy
                  subst hy; decide
                · rw [hh] at hy
                  simp only [Option.mem_def, Option.some.injEq] at hy
                  subst hy; exact hx
          · left; simpa using hcst
      · have hout : subF mSpacesNl (f + 1) (c :: cs) = '\n' :: subF mSpacesNl f rest := by
          simp [subF, hm]
        rw [hout]
        have hrl : rest.length ≤ f := by
          have h1 : (cs.dropWhile isSp).length ≤ cs.length :=
            (List.dropWhile_sublist isSp).length_le
          rw [hD] at h1
          simp only [List.length_cons] at h1
          omega
        have hRF : RunFree isSpTab rest := by
          have h2 : RunFree isSpTab (cs.dropWhile isSp) :=
            RunFree.drop_while (q := isSp) (l := cs) h.tail
          rw [hD] at h2
          exact h2.tail
        have hI := ih rest hrl hRF
        constructor
        · intro d hd hpd
          rcases List.mem_cons.mp hd with h1 | h1
          · subst h1; exact absurd hpd (by decide)
          · exact hI.1 d h1 hpd
        · exact List.chain'_cons'.mpr ⟨fun y _ => Or.inl (by decide), hI.2⟩

theorem mNlSpaces_spec (c : Char) (cs : Str) :
    mNlSpaces (c :: cs) = none ∨
    (c = '\n' ∧ ∃ d ds, cs = d :: ds ∧ d = ' ' ∧
      mNlSpaces (c :: cs) = some (['\n'], ds.dropWhile isSp)) := by
  by_cases hc : c = '\n'
  · subst hc
    cases cs with
    | nil => left; rfl
    | cons d ds =>
      by_cases hd : d = ' '
      · right
        exact ⟨rfl, d, ds, rfl, hd, by simp [mNlSpaces, hd]⟩
      · left; simp [mNlSpaces, hd]
  · left
    cases cs with
    | nil => simp [mNlSpaces]
    | cons d ds =>
      simp only [mNlSpaces]
      split
      · rename_i heq
        injection heq with heq1 _
        exact absurd heq1 hc
      · rfl

theorem head?_subF_mNlSpaces (f : Nat) (x : Char) (xs : Str) :
    (subF mNlSpaces (f + 1) (x :: xs)).head? = some '\n' ∨
    (subF mNlSpaces (f + 1) (x :: xs)).head? = some x := by
  rcases mNlSpaces_spec x xs with hm | ⟨_, d, ds, _, _, hm⟩
  · right; simp [subF, hm]
  · left; simp [subF, hm]

theorem runFree_subF_mNlSpaces :
    ∀ (f : Nat) (l : Str), l.length ≤ f → RunFree isSpTab l →
      RunFree isSpTab (subF mNlSpaces f l) := by
  intro f
  induction f with
  | zero =>
    intro l hl _
    have hnil : l = [] := List.length_eq_zero.mp (Nat.le_zero.mp hl)
    subst hnil
    exact runFree_nil _
  | succ f ih =>
    intro l hl h
    cases l with
    | nil => rw [subF_nil]; exact runFree_nil _
    | cons c cs =>
      have hcs : cs.length ≤ f := by simpa using hl
      rcases mNlSpaces_spec c cs with hm | ⟨hc, d, ds, hcs2, hd, hm⟩
      · have hout : subF mNlSpaces (f + 1) (c :: cs) = c :: subF mNlSpaces f cs := by
          simp [subF, hm]
        rw [hout]
        have hI := ih cs hcs h.tail
        constructor
        · intro e he hpe
          rcases List.mem_cons.mp he with h1 | h1
          · exact h.1 e (List.mem_cons.mpr (Or.inl h1)) hpe
          · exact hI.1 e h1 hpe
        · refine List.chain'_cons'.mpr ⟨?_, hI.2⟩
          intro y hy
          by_cases hcst : isSpTab c = true
          · right
            cases cs with
            | nil => rw [subF_nil] at hy; simp at hy
            | cons x xs =>
              have hx : isSpTab x = false := by
                rcases (List.chain'_cons.mp h.2).1 with h1 | h1
                · rw [hcst] at h1; cases h1
                · exact h1
              cases f with
              | zero => simp at hcs
              | succ f' =>
                rcases head?_subF_mNlSpaces f' x xs with hh | hh
                · rw [hh] at hy
                  simp only [Option.mem_def, Option.some.injEq] at hy
                  subst hy; decide
                · rw [hh] at hy
                  simp only [Option.mem_def, Option.some.injEq] at hy
                  subst hy; exact hx
          · left; simpa using hcst
      · subst hcs2
        have hout : subF mNlSpaces (f + 1) (c :: d :: ds) =
            '\n' :: subF mNlSpaces f (ds.dropWhile isSp) := by
          simp [subF, hm]
        rw [hout]
        have hrl : (ds.dropWhile isSp).length ≤ f := by
          have h1 : (ds.dropWhile isSp).length ≤ ds.length :=
            (List.dropWhile_sublist isSp).length_le
          simp only [List.length_cons] at hl
          omega
        have hRF : RunFree isSpTab (ds.dropWhile isSp) :=
          RunFree.drop_while (q := isSp) (l := ds) h.tail.tail
        have hI := ih _ hrl hRF
        constructor
        · intro e he hpe
          rcases List.mem_cons.mp he with h1 | h1
          · subst h1; exact absurd hpe (by decide)
          · exact hI.1 e h1 hpe
        · exact List.chain'_cons'.mpr ⟨fun y _ => Or.inl (by decide), hI.2⟩

/-! ### Characters of `clean_text` output, and idempotence -/

theorem mNl3_eq_none {l : Str} (h : '\n' ∉ l) : mNl3 l = none := by
  unfold mNl3
  rw [if_neg]
  intro h3
  cases l with
  | nil =>
    simp only [List.takeWhile_nil, List.length_nil] at h3
    omega
  | cons c cs =>
    have hc : c ≠ '\n' := fun he => h (he ▸ List.mem_cons_self c cs)
    rw [List.takeWhile_cons, if_neg (by simp [isNl, hc])] at h3
    simp at h3

theorem mDisallowed_eq_none {l : Str} (h : ∀ c ∈ l.head?, dlAllowed c = true) :
    mDisallowed l = none := by
  cases l with
  | nil => rfl
  | cons c cs =>
    have hc : dlAllowed c = true := h c (by simp)
    simp [mDisallowed, hc]

theorem allowed_subF_mDisallowed :
    ∀ (f : Nat) (l : Str), l.length ≤ f →
      ∀ c ∈ subF mDisallowed f l, dlAllowed c = true := by
  intro f
  induction f with
  | zero =>
    intro l hl c hc
    have hnil : l = [] := List.length_eq_zero.mp (Nat.le_zero.mp hl)
    rw [hnil, subF_nil] at hc
    simp at hc
  | succ f ih =>
    intro l hl c hc
    cases l with
    | nil => rw [subF_nil] at hc; simp at hc
    | cons a cs =>
      have hcs : cs.length ≤ f := by simpa using hl
      by_cases ha : dlAllowed a = true
      · rw [show subF mDisallowed (f + 1) (a :: cs) = a :: subF mDisallowed f cs from
            by simp [subF, mDisallowed, ha]] at hc
        rcases List.mem_cons.mp hc with h1 | h1
        · rw [h1]; exact ha
        · exact ih cs hcs c h1
      · rw [show subF mDisallowed (f + 1) (a :: cs) = ' ' :: subF mDisallowed f cs from
            by simp [subF, mDisallowed, ha]] at hc
        rcases List.mem_cons.mp hc with h1 | h1
        · rw [h1]; decide
        · exact ih cs hcs c h1

theorem runFree_clean_text (s : Str) : RunFree pyIsSpace (clean_text s) := by
  apply runFree_pyStrip
  exact runFree_subF_mColl pyIsSpace _ _ le_rfl

theorem allowed_clean_text (s : Str) : ∀ c ∈ clean_text s, dlAllowed c = true := by
  intro c hc
  have hc1 := mem_pyStrip hc
  rcases mem_subF_mColl pyIsSpace _ _ c hc1 with h1 | h1
  · exact allowed_subF_mDisallowed _ _ le_rfl c h1
  · rw [h1]; decide

theorem isSpTab_le_pyIsSpace : ∀ c, isSpTab c = true → pyIsSpace c = true := by
  intro c hc
  simp only [isSpTab, Bool.or_eq_true, decide_eq_true_eq] at hc
  rcases hc with h | h <;> simp [pyIsSpace, h]

/-- A text that is already fully normalized (single spaces only, allowed
characters only, stripped) is a fixed point of `clean_text`. -/
theorem clean_text_fixed {t : Str} (hRF : RunFree pyIsSpace t)
    (hAll : ∀ c ∈ t, dlAllowed c = true) (hStr : Stripped t) :
    clean_text t = t := by
  have hNl : '\n' ∉ t := not_mem_of_runFree hRF (by decide) (by decide)
  have e1 : pySub mNl3 t = t :=
    pySub_no_match_id _ _ (fun i =>
      mNl3_eq_none (fun hmem => hNl (List.drop_subset i t hmem)))
  have e2 : pySub mSpTab t = t :=
    subF_mColl_id isSpTab _ _ le_rfl (runFree_mono isSpTab_le_pyIsSpace hRF)
  have e3 : pySub mDisallowed t = t := by
    refine pySub_no_match_id _ _ (fun i => mDisallowed_eq_none ?_)
    intro c hc
    cases hdr : (t.drop i).head? with
    | none => rw [hdr] at hc; simp at hc
    | some x =>
      rw [hdr] at hc
      simp only [Option.mem_def, Option.some.injEq] at hc
      have hx : x ∈ t.drop i := List.mem_of_mem_head? (by rw [hdr]; rfl)
      rw [← hc]
      exact hAll x (List.drop_subset i t hx)
  have e4 : pySub mWs t = t := subF_mColl_id pyIsSpace _ _ le_rfl hRF
  have e5 : pyStrip t = t := pyStrip_eq_self hStr
  unfold clean_text
  rw [e1, e2, e3, e4, e5]

/-! ### The normalizer outputs satisfy the collapsed-run invariant -/

theorem runFree_clean_ocr_text {s : Str} (h : (pyStrip s).isEmpty = false) :
    RunFree isSpTab (clean_ocr_text s) := by
  unfold clean_ocr_text
  rw [if_neg (by simp [h])]
  exact runFree_pyStrip
    (runFree_subF_mNlSpaces _ _ le_rfl
      (runFree_subF_mSpacesNl _ _ le_rfl
        (runFree_subF_mColl isSpTab _ _ le_rfl)))

theorem runFree_clean_extracted_text {s : Str} (h : (pyStrip s).isEmpty = false) :
    RunFree pyIsSpace (clean_extracted_text s) := by
  unfold clean_extracted_text
  rw [if_neg (by simp [h])]
  exact runFree_pyStrip (runFree_subF_mColl pyIsSpace _ _ le_rfl)

/-! ### `re.search` returns the leftmost match -/

theorem pySearch_some {α : Type} (m : Str → Option α) (hnil : m [] = none) :
    ∀ (t : Str) (i : Nat) (v : α),
      (∀ j, j < i → m (t.drop j) = none) → m (t.drop i) = some v →
      pySearch m t = some v := by
  intro t
  induction t with
  | nil =>
    intro i v _ hat
    rw [List.drop_nil, hnil] at hat
    cases hat
  | cons c cs ih =>
    intro i v hbefore hat
    cases i with
    | zero =>
      rw [List.drop_zero] at hat
      simp [pySearch, hat]
    | succ i =>
      have h0 : m (c :: cs) = none := by
        have := hbefore 0 (Nat.succ_pos i)
        rwa [List.drop_zero] at this
      rw [show pySearch m (c :: cs) = pySearch m cs from by simp [pySearch, h0]]
      refine ih i v ?_ ?_
      · intro j hj
        have := hbefore (j + 1) (Nat.succ_lt_succ hj)
        rwa [List.drop_succ_cons] at this
      · rwa [List.drop_succ_cons] at hat

theorem pySearch_none {α : Type} (m : Str → Option α) :
    ∀ (t : Str), (∀ j, m (t.drop j) = none) → pySearch m t = none := by
  intro t
  induction t with
  | nil => intro _; rfl
  | cons c cs ih =>
    intro h
    have h0 : m (c :: cs) = none := by
      have := h 0
      rwa [List.drop_zero] at this
    rw [show pySearch m (c :: cs) = pySearch m cs from by simp [pySearch, h0]]
    exact ih fun j => by
      have := h (j + 1)
      rwa [List.drop_succ_cons] at this

theorem matchDecreto_nil : matchDecreto [] = none := by decide

theorem matchLey_nil : matchLey [] = none := by decide

theorem extract_metadata_decree {t fn n y : Str}
    (h : pySearch matchDecreto t = some (n, y)) :
    (extract_metadata t fn).document_type = DocType.DECRETO ∧
    (extract_metadata t fn).number = some n ∧
    (extract_metadata t fn).year = some y := by
  simp [extract_metadata, h]

theorem extract_metadata_ley {t fn n y : Str}
    (hd : pySearch matchDecreto t = none)
    (hl : pySearch matchLey t = some (n, y)) :
    (extract_metadata t fn).document_type = DocType.LEY ∧
    (extract_metadata t fn).number = some n ∧
    (extract_metadata t fn).year = some y := by
  simp [extract_metadata, hd, hl]

theorem extract_metadata_unknown {t fn : Str}
    (hd : pySearch matchDecreto t = none)
    (hl : pySearch matchLey t = none) :
    (extract_metadata t fn).document_type = DocType.UNKNOWN ∧
    (extract_metadata t fn).number = none ∧
    (extract_metadata t fn).year = none := by
  simp [extract_metadata, hd, hl]

/-! ### Paragraph counting on newline-free text -/

theorem splitNNAux_no_nl :
    ∀ (n : Nat) (l acc : Str), l.length ≤ n → '\n' ∉ l →
      splitNNAux l acc = [acc.reverse ++ l] := by
  intro n
  induction n with
  | zero =>
    intro l acc hl _
    have hnil : l = [] := List.length_eq_zero.mp (Nat.le_zero.mp hl)
    subst hnil
    simp [splitNNAux]
  | succ n ih =>
    intro l acc hl h
    cases l with
    | nil => simp [splitNNAux]
    | cons c rest =>
      have hc : c ≠ '\n' := fun he => h (he ▸ List.mem_cons_self c rest)
      have hrest : '\n' ∉ rest := fun hm => h (List.mem_cons_of_mem c hm)
      cases rest with
      | nil => simp [splitNNAux]
      | cons d rest2 =>
        have hcond : (decide (c = '\n') && decide (d = '\n')) = false := by
          simp [hc]
        rw [show splitNNAux (c :: d :: rest2) acc =
            splitNNAux (d :: rest2) (c :: acc) from by simp [splitNNAux, hcond]]
        rw [ih (d :: rest2) (c :: acc) (by simpa using hl) hrest]
        simp

theorem splitNN_length_one {t : Str} (h : '\n' ∉ t) : (splitNN t).length = 1 := by
  unfold splitNN
  rw [splitNNAux_no_nl t.length t [] le_rfl h]
  rfl

theorem isEmpty_false_of_strip {t : Str} (h : (pyStrip t).isEmpty = false) :
    t.isEmpty = false := by
  cases t with
  | nil => simp [pyStrip] at h
  | cons c cs => rfl

/-! ### The claims -/


/-- C1 (counterexample): the claim "any normalized text containing
`LEY 48 DE 1968` yields document_type=LEY, number=48, year=1968" fails: a
text that also contains a decree header anywhere is classified as DECRETO
with the decree's groups, because the decree pattern is searched first. -/
theorem c1_counterexample :
    (∃ pre post : Str,
      sl ("LEY 48 DE 1968 DECRETO 1 DE 1990") =
        pre ++ sl ("LEY 48 DE 1968") ++ post) ∧
    (extract_metadata (sl ("LEY 48 DE 1968 DECRETO 1 DE 1990")) (sl ("f"))).document_type =
      DocType.DECRETO ∧
    (extract_metadata (sl ("LEY 48 DE 1968 DECRETO 1 DE 1990")) (sl ("f"))).number =
      some (sl ("1")) ∧
    (extract_metadata (sl ("LEY 48 DE 1968 DECRETO 1 DE 1990")) (sl ("f"))).year =
      some (sl ("1990")) := by
  exact ⟨⟨[], sl (" DECRETO 1 DE 1990"), by decide⟩, by decide, by decide, by decide⟩

/-- C1 (amended): the three stated classifications hold with the containment
hypothesis strengthened to "the contained occurrence is the leftmost match":
the decree phrase (with or without NÚMERO) matches with groups 3398/1968 and
the law phrase with 48/1968; if the leftmost decree-pattern match of a text
yields groups (n, y), the metadata is DECRETO/n/y; if the decree pattern
matches nowhere and the leftmost law-pattern match yields (n, y), the
metadata is LEY/n/y; if neither pattern matches anywhere, the metadata is
UNKNOWN with number and year None. -/
theorem c1_amended :
    matchDecreto (sl ("DECRETO NÚMERO 3398 DE 1968")) =
      some (sl ("3398"), sl ("1968")) ∧
    matchDecreto (sl ("DECRETO 3398 DE 1968")) =
      some (sl ("3398"), sl ("1968")) ∧
    matchLey (sl ("LEY 48 DE 1968")) = some (sl ("48"), sl ("1968")) ∧
    (∀ (t fn : Str) (i : Nat) (n y : Str),
      (∀ j, j < i → matchDecreto (t.drop j) = none) →
      matchDecreto (t.drop i) = some (n, y) →
      (extract_metadata t fn).document_type = DocType.DECRETO ∧
      (extract_metadata t fn).number = some n ∧
      (extract_metadata t fn).year = some y) ∧
    (∀ (t fn : Str) (i : Nat) (n y : Str),
      (∀ j, matchDecreto (t.drop j) = none) →
      (∀ j, j < i → matchLey (t.drop j) = none) →
      matchLey (t.drop i) = some (n, y) →
      (extract_metadata t fn).document_type = DocType.LEY ∧
      (extract_metadata t fn).number = some n ∧
      (extract_metadata t fn).year = some y) ∧
    (∀ (t fn : Str),
      (∀ j, matchDecreto (t.drop j) = none) →
      (∀ j, matchLey (t.drop j) = none) →
      (extract_metadata t fn).document_type = DocType.UNKNOWN ∧
      (extract_metadata t fn).number = none ∧
      (extract_metadata t fn).year = none) := by
  refine ⟨by decide, by decide, by decide, ?_, ?_, ?_⟩
  · intro t fn i n y hbefore hat
    exact extract_metadata_decree
      (pySearch_some matchDecreto matchDecreto_nil t i (n, y) hbefore hat)
  · intro t fn i n y hdec hbefore hat
    exact extract_metadata_ley (pySearch_none matchDecreto t hdec)
      (pySearch_some matchLey matchLey_nil t i (n, y) hbefore hat)
  · intro t fn hdec hley
    exact extract_metadata_unknown (pySearch_none matchDecreto t hdec)
      (pySearch_none matchLey t hley)

/-- C1 (witness): the decree clause of the amended claim applied to the
decree phrase itself. -/
theorem c1_amended_witness :
    (extract_metadata (sl ("DECRETO NÚMERO 3398 DE 1968")) (sl ("f"))).document_type =
      DocType.DECRETO ∧
    (extract_metadata (sl ("DECRETO NÚMERO 3398 DE 1968")) (sl ("f"))).number =
      some (sl ("3398")) ∧
    (extract_metadata (sl ("DECRETO NÚMERO 3398 DE 1968")) (sl ("f"))).year =
      some (sl ("1968")) :=
  c1_amended.2.2.2.1 (sl ("DECRETO NÚMERO 3398 DE 1968")) (sl ("f")) 0
    (sl ("3398")) (sl ("1968"))
    (fun j hj => absurd hj (Nat.not_lt_zero j)) (by decide)

/-- C2: on input `a\n\n\nb` the OCR cleaner returns the input unchanged and
the output still contains a run of three newlines, although the claim (and
the source's own comment "Max 2 newlines") requires no run longer than two:
the pattern `\n{4,}` only collapses runs of four or more. -/
theorem c2_ocr_three_newline_run_survives :
    clean_ocr_text (sl ("a\n\n\nb")) = sl ("a\n\n\nb") ∧
    hasNlRun3 (clean_ocr_text (sl ("a\n\n\nb"))) = true := by
  constructor
  · decide
  · decide

/-- C3 (counterexample): the OCR cleaner returns a whitespace-only input
unchanged, so a tab survives, contradicting "for every input string the
output contains no tab character". -/
theorem c3_counterexample :
    clean_ocr_text (['\t']) = ['\t'] ∧ '\t' ∈ clean_ocr_text (['\t']) := by
  decide

/-- C3 (amended): `clean_text` output never contains a tab or two adjacent
spaces; the OCR and archived-PDF cleaners guarantee the same for every input
with at least one non-whitespace character (whitespace-only inputs are
returned unchanged by their early-return guard). -/
theorem c3_amended :
    (∀ s : Str, '\t' ∉ clean_text s ∧ hasTwoSpaces (clean_text s) = false) ∧
    (∀ s : Str, (pyStrip s).isEmpty = false →
      '\t' ∉ clean_ocr_text s ∧ hasTwoSpaces (clean_ocr_text s) = false) ∧
    (∀ s : Str, (pyStrip s).isEmpty = false →
      '\t' ∉ clean_extracted_text s ∧
        hasTwoSpaces (clean_extracted_text s) = false) := by
  refine ⟨fun s => ?_, fun s h => ?_, fun s h => ?_⟩
  · have hRF := runFree_clean_text s
    exact ⟨not_mem_of_runFree hRF (by decide) (by decide),
      hasTwoSpaces_eq_false (by decide) hRF.2⟩
  · have hRF := runFree_clean_ocr_text h
    exact ⟨not_mem_of_runFree hRF (by decide) (by decide),
      hasTwoSpaces_eq_false (by decide) hRF.2⟩
  · have hRF := runFree_clean_extracted_text h
    exact ⟨not_mem_of_runFree hRF (by decide) (by decide),
      hasTwoSpaces_eq_false (by decide) hRF.2⟩

/-- C3 (witness): the OCR clause of the amended claim at a concrete input
containing a tab and a non-whitespace character. -/
theorem c3_amended_witness :
    (pyStrip (sl ("a\tb"))).isEmpty = false ∧
    ('\t' ∉ clean_ocr_text (sl ("a\tb")) ∧
      hasTwoSpaces (clean_ocr_text (sl ("a\tb"))) = false) :=
  ⟨by decide, c3_amended.2.1 (sl ("a\tb")) (by decide)⟩

/-- C4: `clean_text` output contains no newline (its final `\s+` pass
collapses every whitespace run to a single space), so `extract_metadata`
always reports `paragraph_count = 1` on it. -/
theorem c4_clean_text_single_paragraph (s fn : Str) :
    '\n' ∉ clean_text s ∧
    (extract_metadata (clean_text s) fn).paragraph_count = 1 := by
  have hRF := runFree_clean_text s
  have hnl : '\n' ∉ clean_text s := not_mem_of_runFree hRF (by decide) (by decide)
  refine ⟨hnl, ?_⟩
  have hpc : (extract_metadata (clean_text s) fn).paragraph_count =
      (splitNN (clean_text s)).length := rfl
  rw [hpc, splitNN_length_one hnl]

/-- C5: every normalizer variant is a total function of the input text (the
embeddings are total Lean functions, as the sources raise no exception), and
each returns the empty string unchanged. -/
theorem c5_empty_input_unchanged :
    clean_text ([] : Str) = [] ∧ clean_ocr_text ([] : Str) = [] ∧
    clean_extracted_text ([] : Str) = [] := by
  decide

/-- C6: the decree pattern is searched before the law pattern and wins
whenever it matches anywhere, regardless of where a law match occurs: if the
leftmost decree match yields groups (n, y) and the law pattern matches
somewhere (at any position j, even earlier), the metadata is DECRETO/n/y. -/
theorem c6_decree_priority (t fn : Str) (i j : Nat) (n y nl yl : Str)
    (hbefore : ∀ k, k < i → matchDecreto (t.drop k) = none)
    (hdec : matchDecreto (t.drop i) = some (n, y))
    (_hley : matchLey (t.drop j) = some (nl, yl)) :
    (extract_metadata t fn).document_type = DocType.DECRETO ∧
    (extract_metadata t fn).number = some n ∧
    (extract_metadata t fn).year = some y :=
  extract_metadata_decree
    (pySearch_some matchDecreto matchDecreto_nil t i (n, y) hbefore hdec)

/-- C6 (witness): a text whose law match occurs before its decree match is
still classified as DECRETO with the decree's groups. -/
theorem c6_decree_priority_witness :
    (extract_metadata (sl ("LEY 48 DE 1968 DECRETO 3398 DE 1968")) (sl ("f"))).document_type =
      DocType.DECRETO ∧
    (extract_metadata (sl ("LEY 48 DE 1968 DECRETO 3398 DE 1968")) (sl ("f"))).number =
      some (sl ("3398")) ∧
    (extract_metadata (sl ("LEY 48 DE 1968 DECRETO 3398 DE 1968")) (sl ("f"))).year =
      some (sl ("1968")) :=
  c6_decree_priority (sl ("LEY 48 DE 1968 DECRETO 3398 DE 1968")) (sl ("f"))
    15 0 (sl ("3398")) (sl ("1968")) (sl ("48")) (sl ("1968"))
    (by decide) (by decide) (by decide)

/-- C7 (counterexample): the OCR cleaner is not idempotent even on blank-line
and space runs: on `a\n \n \n \n \nb` the first pass produces a run of five
newlines (the space-before-newline pass merges the runs after `\n{4,}` has
already run), which a second pass collapses to two. -/
theorem c7_counterexample :
    clean_ocr_text (sl ("a\n \n \n \n \nb")) = sl ("a\n\n\n\n\nb") ∧
    clean_ocr_text (sl ("a\n\n\n\n\nb")) = sl ("a\n\nb") ∧
    clean_ocr_text (clean_ocr_text (sl ("a\n \n \n \n \nb"))) ≠
      clean_ocr_text (sl ("a\n \n \n \n \nb")) := by
  refine ⟨by decide, by decide, ?_⟩
  decide

/-- C7 (amended): `DecreeDataLoader.clean_text` is fully idempotent: its
output is a fixed point (no whitespace run, disallowed character, or edge
whitespace remains for a second pass to change). -/
theorem c7_clean_text_idempotent (s : Str) :
    clean_text (clean_text s) = clean_text s :=
  clean_text_fixed (runFree_clean_text s) (allowed_clean_text s)
    (pyStrip_stripped (pySub mWs (pySub mDisallowed (pySub mSpTab (pySub mNl3 s)))))

/-- C8: when the requested document is absent from the file system, both
text source adapters return the `FileNotFoundError` before any extraction
work and leave the file system (in particular the set of output `.txt`
files) unchanged. -/
theorem c8_missing_file (fs : PdfFS) (name outname : String)
    (h : lookupDoc fs name = none) :
    ocr_pdf fs name outname = (fs, [], Except.error ExtractErr.fileNotFound) ∧
    extract_text_from_pdf fs name outname =
      (fs, [], Except.error ExtractErr.fileNotFound) := by
  constructor
  · simp [ocr_pdf, h]
  · simp [extract_text_from_pdf, h]

/-- C8 (witness): the missing-file behavior on an empty file system. -/
theorem c8_missing_file_witness :
    lookupDoc ⟨[], [], true⟩ ("a.pdf") = none ∧
    (ocr_pdf ⟨[], [], true⟩ ("a.pdf") ("a.txt") =
        (⟨[], [], true⟩, [], Except.error ExtractErr.fileNotFound) ∧
      extract_text_from_pdf ⟨[], [], true⟩ ("a.pdf") ("a.txt") =
        (⟨[], [], true⟩, [], Except.error ExtractErr.fileNotFound)) :=
  ⟨rfl, c8_missing_file ⟨[], [], true⟩ ("a.pdf") ("a.txt") rfl⟩

/-- C9: for a three-page document whose second page fails, both adapters
feed the normalizer the concatenation of page 1's and page 3's text only
(each good page followed by a blank line) and log exactly the page-2
failure; the remaining pages are still processed. -/
theorem c9_page_failure_skipped (fs : PdfFS) (name outname : String) (t1 t3 : Str)
    (hdoc : lookupDoc fs name =
      some [PageResult.ok t1, PageResult.err, PageResult.ok t3])
    (hpop : fs.popplerExists = true)
    (h1 : (pyStrip t1).isEmpty = false) (h3 : (pyStrip t3).isEmpty = false) :
    (ocr_pdf fs name outname).2.2 =
      Except.ok (clean_ocr_text (t1 ++ sl ("\n\n") ++ t3 ++ sl ("\n\n"))) ∧
    (ocr_pdf fs name outname).2.1 = [LogEvent.pageFailed 2] ∧
    (extract_text_from_pdf fs name outname).2.2 =
      Except.ok (clean_extracted_text (t1 ++ sl ("\n\n") ++ t3 ++ sl ("\n\n"))) ∧
    (extract_text_from_pdf fs name outname).2.1 = [LogEvent.pageFailed 2] := by
  have g1 : t1.isEmpty = false := isEmpty_false_of_strip h1
  have g3 : t3.isEmpty = false := isEmpty_false_of_strip h3
  refine ⟨?_, ?_, ?_, ?_⟩ <;>
    simp [ocr_pdf, extract_text_from_pdf, hdoc, hpop, ocrPagesLoop, pdfPagesLoop,
      h1, h3, g1, g3, List.append_assoc]

/-- C9 (witness): the three-page behavior on a concrete document. -/
theorem c9_page_failure_skipped_witness :
    (ocr_pdf
        ⟨[(("d.pdf" : String),
            [PageResult.ok (sl ("Hola")), PageResult.err, PageResult.ok (sl ("Mundo"))])],
          [], true⟩ ("d.pdf") ("d.txt")).2.2 =
      Except.ok (clean_ocr_text (sl ("Hola") ++ sl ("\n\n") ++ sl ("Mundo") ++ sl ("\n\n"))) ∧
    (ocr_pdf
        ⟨[(("d.pdf" : String),
            [PageResult.ok (sl ("Hola")), PageResult.err, PageResult.ok (sl ("Mundo"))])],
          [], true⟩ ("d.pdf") ("d.txt")).2.1 = [LogEvent.pageFailed 2] :=
  ⟨(c9_page_failure_skipped _ ("d.pdf") ("d.txt") (sl ("Hola")) (sl ("Mundo"))
      (by decide) rfl (by decide) (by decide)).1,
    (c9_page_failure_skipped _ ("d.pdf") ("d.txt") (sl ("Hola")) (sl ("Mundo"))
      (by decide) rfl (by decide) (by decide)).2.1⟩

/-- C10 (counterexample): `clean_text` keeps the underscore (it is a `\w`
word character), which is outside the claim's allow-list of letters, digits,
whitespace, and the listed punctuation marks. -/
theorem c10_counterexample :
    clean_text (['_']) = ['_'] ∧ specAllowedChar '_' = false := by
  decide

/-- The source's kept-character class differs from the spec's allow-list
exactly by the underscore. -/
theorem dlAllowed_spec (c : Char) (h : dlAllowed c = true) :
    specAllowedChar c = true ∨ c = '_' := by
  by_cases hu : c = '_'
  · right; exact hu
  · left
    have h2 : dlAllowed c = (specAllowedChar c || decide (c = '_')) := by
      simp only [dlAllowed, specAllowedChar, pyIsWordChar, asciiAlpha]
      cases hb1 : asciiLower c <;> cases hb2 : asciiUpper c <;>
        cases hb3 : isDigitC c <;> cases hb4 : pyIsSpace c <;>
          cases hb5 : decide (c = '_') <;> cases hb6 : spanishExtra.contains c <;>
            cases hb7 : dlPunct.contains c <;> rfl
    rw [h2, Bool.or_eq_true] at h
    rcases h with h | h
    · exact h
    · exact absurd (of_decide_eq_true h) hu

/-- C10 (amended): every character of `clean_text` output is in the spec's
allow-list or is an underscore. -/
theorem c10_amended (s : Str) :
    ∀ c ∈ clean_text s, specAllowedChar c = true ∨ c = '_' := fun c hc =>
  dlAllowed_spec c (allowed_clean_text s c hc)

/-- C10 (witness): the amended claim at a concrete output character. -/
theorem c10_amended_witness :
    'a' ∈ clean_text (sl ("a!")) ∧ (specAllowedChar 'a' = true ∨ 'a' = '_') :=
  ⟨by decide, c10_amended (sl ("a!")) 'a' (by decide)⟩

end AmbiguityInAction
